import Mathlib

/-!
Verification development for the manifest-driven restore command of the
inspected repository. The Go source (restore command builder, manifest
loader/merger, full and non-full restore executors, shard transfer) is
shallowly embedded: file-system and remote-server interactions are passed in
as explicit environments, machine integers become naturals, fallible steps
return Except, and every remote call performed by an executor is recorded in
an effect trace in call order.
-/

namespace Restore

/-- Shard-file descriptor of a backup manifest. The Go type
influxdb.ManifestEntry lives outside the inspected files; the fields kept
here are exactly the ones the restore code reads: ShardID (uint64), BucketID
(a string), FileName and LastModified. Timestamps are modelled as naturals,
with time.After as strict greater-than. -/
structure ManifestEntry where
  shardID : Nat
  bucketID : String
  fileName : String
  lastModified : Nat
deriving DecidableEq, Repr

/-- Modelled from the spec: the metadata-store snapshot descriptor of a
manifest (the Go type influxdb.ManifestKVEntry is outside the inspected
files); per the spec data model it carries a file name and a last-modified
timestamp. Only the file name is read by the restore code. -/
structure ManifestKVEntry where
  fileName : String
  lastModified : Nat
deriving DecidableEq, Repr

/-- Model of influxdb.Manifest as consumed by the restore code: one KV
snapshot descriptor plus a sequence of shard-file descriptors. -/
structure Manifest where
  kv : ManifestKVEntry
  files : List ManifestEntry
deriving DecidableEq, Repr

/-- Association-list model of the Go map b.shardEntries
(map[uint64]*influxdb.ManifestEntry): lookup by shard ID, none when the key
is absent (nil pointer in Go). -/
def lookupShard : List (Nat × ManifestEntry) → Nat → Option ManifestEntry
  | [], _ => none
  | (k, v) :: rest, s => if k = s then some v else lookupShard rest s

/-- Map update b.shardEntries[i] = e: replaces the binding for key i when
present, otherwise appends a new binding. -/
def setShard : List (Nat × ManifestEntry) → Nat → ManifestEntry → List (Nat × ManifestEntry)
  | [], i, e => [(i, e)]
  | (k, v) :: rest, i, e => if k = i then (k, e) :: rest else (k, v) :: setShard rest i e

/-- One iteration of the shard loop of loadIncremental: the descriptor is
skipped when its backing file is missing from the backup directory (os.Stat
fails), and otherwise recorded when no entry for its shard ID has been kept
yet or when its timestamp is strictly greater (time.After) than the kept
one. `ex` models os.Stat success per file name inside the backup
directory. -/
def mergeStep (ex : String → Bool) (m : List (Nat × ManifestEntry)) (sh : ManifestEntry) :
    List (Nat × ManifestEntry) :=
  if ex sh.fileName then
    match lookupShard m sh.shardID with
    | none => setShard m sh.shardID sh
    | some entry =>
      if entry.lastModified < sh.lastModified then setShard m sh.shardID sh else m
  else m

/-- State threaded through loadIncremental: the saved KV entry (nil pointer
at the start) and the merged shard map. -/
structure LoadState where
  kvEntry : Option ManifestKVEntry
  shardEntries : List (Nat × ManifestEntry)
deriving Repr

/-- Processing of one manifest inside the loop of loadIncremental: save its
KV entry when none has been saved yet, then fold its shard descriptors into
the map. -/
def processManifest (ex : String → Bool) (st : LoadState) (man : Manifest) : LoadState :=
  { kvEntry :=
      match st.kvEntry with
      | none => some man.kv
      | some k => some k
    shardEntries := man.files.foldl (mergeStep ex) st.shardEntries }

/-- Folds a list of manifests, in the given processing order, into a
LoadState, starting from the empty state (nil kvEntry, empty map). -/
def loadManifests (ex : String → Bool) (ms : List Manifest) : LoadState :=
  ms.foldl (processManifest ex) ⟨none, []⟩

/-- Filename order used by the sort: lexicographic on the character list
(byte-wise in Go; identical on the ASCII filenames of manifests). -/
def nameLe (a b : String) : Prop :=
  a.data ≤ b.data

instance : DecidableRel nameLe := fun a b => inferInstanceAs (Decidable (a.data ≤ b.data))

/-- sort.Sort(sort.Reverse(sort.StringSlice(manifests))): puts the manifest
files into descending filename order. The Go sort is modelled by insertion
sort, which satisfies the same contract (a sorted permutation). -/
def sortByNameDesc (named : List (String × Manifest)) : List (String × Manifest) :=
  List.insertionSort (fun a b => nameLe b.1 a.1) named

/-- loadIncremental: reads the manifest files of the backup directory (given
here as already-parsed (filename, manifest) pairs, directories and JSON
decoding being I/O outside the model), sorts them into descending filename
order, and folds them into a LoadState. -/
def loadIncremental (ex : String → Bool) (named : List (String × Manifest)) : LoadState :=
  loadManifests ex ((sortByNameDesc named).map Prod.snd)

/-- All entries of all manifests, in processing order, that carry the given
shard ID. -/
def entriesFor (s : Nat) (ms : List Manifest) : List ManifestEntry :=
  (ms.flatMap Manifest.files).filter (fun e => e.shardID == s)

/-- All entries of all manifests, in processing order, that carry the given
shard ID and whose backing file exists. -/
def relevant (ex : String → Bool) (s : Nat) (ms : List Manifest) : List ManifestEntry :=
  (ms.flatMap Manifest.files).filter (fun e => e.shardID == s && ex e.fileName)

/-- Keep-the-better-entry rule of loadIncremental at the level of one
optional kept entry: a candidate replaces the kept entry exactly when none is
kept yet or when its timestamp is strictly greater. -/
def betterOpt (cur : Option ManifestEntry) (e : ManifestEntry) : Option ManifestEntry :=
  match cur with
  | none => some e
  | some c => if c.lastModified < e.lastModified then some e else some c

theorem lookupShard_setShard (m : List (Nat × ManifestEntry)) (i : Nat) (e : ManifestEntry)
    (s : Nat) :
    lookupShard (setShard m i e) s = if i = s then some e else lookupShard m s := by
  induction m with
  | nil => simp only [setShard, lookupShard]
  | cons p rest ih =>
    obtain ⟨k, v⟩ := p
    simp only [setShard]
    by_cases hk : k = i
    · subst hk
      simp only [if_pos rfl, lookupShard]
      by_cases hs : k = s
      · simp [hs]
      · simp [hs]
    · simp only [if_neg hk, lookupShard]
      by_cases hs : k = s
      · have hi : ¬ i = s := fun h => hk (by rw [h, hs])
        simp [hs, hi]
      · simp [hs, ih]

theorem lookupShard_mergeStep (ex : String → Bool) (m : List (Nat × ManifestEntry))
    (sh : ManifestEntry) (s : Nat) :
    lookupShard (mergeStep ex m sh) s =
      if sh.shardID == s && ex sh.fileName then betterOpt (lookupShard m s) sh
      else lookupShard m s := by
  unfold mergeStep
  by_cases hex : ex sh.fileName
  · simp only [hex, if_true, Bool.and_true]
    by_cases hs : sh.shardID = s
    · subst hs
      simp only [beq_self_eq_true, if_true]
      cases h : lookupShard m sh.shardID with
      | none => simp [lookupShard_setShard, betterOpt, h]
      | some entry =>
        by_cases hlt : entry.lastModified < sh.lastModified
        · simp [hlt, lookupShard_setShard, betterOpt, h]
        · simp [hlt, betterOpt, h]
    · have hbe : (sh.shardID == s) = false := by simp [hs]
      simp only [hbe, Bool.false_and, Bool.false_eq_true, if_false]
      cases h : lookupShard m sh.shardID with
      | none => simp [lookupShard_setShard, hs]
      | some entry =>
        by_cases hlt : entry.lastModified < sh.lastModified
        · simp [hlt, lookupShard_setShard, hs]
        · simp [hlt]
  · simp [hex]

theorem lookupShard_foldl_mergeStep (ex : String → Bool) (files : List ManifestEntry)
    (m : List (Nat × ManifestEntry)) (s : Nat) :
    lookupShard (files.foldl (mergeStep ex) m) s =
      List.foldl betterOpt (lookupShard m s)
        (files.filter (fun e => e.shardID == s && ex e.fileName)) := by
  induction files generalizing m with
  | nil => rfl
  | cons f rest ih =>
    simp only [List.foldl_cons, List.filter_cons]
    by_cases hf : (f.shardID == s && ex f.fileName) = true
    · rw [ih, lookupShard_mergeStep, if_pos hf, hf]
      simp
    · rw [ih, lookupShard_mergeStep, if_neg (by simp [hf])]
      simp [hf]

theorem loadManifests_shardEntries_foldl (ex : String → Bool) (ms : List Manifest)
    (st : LoadState) :
    (ms.foldl (processManifest ex) st).shardEntries =
      ms.foldl (fun m man => man.files.foldl (mergeStep ex) m) st.shardEntries := by
  induction ms generalizing st with
  | nil => rfl
  | cons man rest ih => simp only [List.foldl_cons, ih, processManifest]

theorem lookupShard_loadManifests (ex : String → Bool) (ms : List Manifest) (s : Nat) :
    lookupShard (loadManifests ex ms).shardEntries s =
      List.foldl betterOpt none (relevant ex s ms) := by
  unfold loadManifests
  rw [loadManifests_shardEntries_foldl]
  have key : ∀ (ms' : List Manifest) (m : List (Nat × ManifestEntry)),
      lookupShard (ms'.foldl (fun m man => man.files.foldl (mergeStep ex) m) m) s =
        List.foldl betterOpt (lookupShard m s) (relevant ex s ms') := by
    intro ms'
    induction ms' with
    | nil => intro m; rfl
    | cons man rest ih =>
      intro m
      simp only [List.foldl_cons]
      rw [ih, lookupShard_foldl_mergeStep]
      have hrel : relevant ex s (man :: rest) =
          man.files.filter (fun e => e.shardID == s && ex e.fileName) ++
            relevant ex s rest := by
        simp [relevant, List.flatMap_cons, List.filter_append]
      rw [hrel, List.foldl_append]
  have := key ms []
  simpa [lookupShard] using this

theorem kvEntry_foldl_some (ex : String → Bool) (ms : List Manifest) (st : LoadState)
    (k : ManifestKVEntry) (h : st.kvEntry = some k) :
    (ms.foldl (processManifest ex) st).kvEntry = some k := by
  induction ms generalizing st with
  | nil => exact h
  | cons man rest ih =>
    simp only [List.foldl_cons]
    exact ih _ (by simp [processManifest, h])

theorem loadManifests_kvEntry_cons (ex : String → Bool) (man : Manifest)
    (ms : List Manifest) :
    (loadManifests ex (man :: ms)).kvEntry = some man.kv := by
  unfold loadManifests
  simp only [List.foldl_cons]
  exact kvEntry_foldl_some ex ms _ man.kv (by simp [processManifest])

theorem betterOpt_some (cur : Option ManifestEntry) (e : ManifestEntry) :
    ∃ x, betterOpt cur e = some x ∧ (x = e ∨ cur = some x) ∧
      e.lastModified ≤ x.lastModified ∧
      (∀ a, cur = some a → a.lastModified ≤ x.lastModified) := by
  cases cur with
  | none => exact ⟨e, rfl, Or.inl rfl, Nat.le_refl _, by intro a h; cases h⟩
  | some c =>
    by_cases hlt : c.lastModified < e.lastModified
    · refine ⟨e, by simp [betterOpt, hlt], Or.inl rfl, Nat.le_refl _, ?_⟩
      intro a h
      cases h
      exact Nat.le_of_lt hlt
    · refine ⟨c, by simp [betterOpt, hlt], Or.inr rfl, Nat.le_of_not_lt hlt, ?_⟩
      intro a h
      cases h
      exact Nat.le_refl _

theorem foldl_betterOpt_spec (l : List ManifestEntry) :
    ∀ (acc : Option ManifestEntry) (x : ManifestEntry),
      List.foldl betterOpt acc l = some x →
      (acc = some x ∨ x ∈ l) ∧ (∀ e ∈ l, e.lastModified ≤ x.lastModified) ∧
        (∀ a, acc = some a → a.lastModified ≤ x.lastModified) := by
  induction l with
  | nil =>
    intro acc x h
    simp only [List.foldl_nil] at h
    refine ⟨Or.inl h, by simp, ?_⟩
    intro a ha
    rw [h] at ha
    cases ha
    exact Nat.le_refl _
  | cons e rest ih =>
    intro acc x h
    simp only [List.foldl_cons] at h
    obtain ⟨m, hm, hcase, hle, hacc⟩ := betterOpt_some acc e
    rw [hm] at h
    obtain ⟨ih1, ih2, ih3⟩ := ih (some m) x h
    have hmx : m.lastModified ≤ x.lastModified := ih3 m rfl
    refine ⟨?_, ?_, ?_⟩
    · rcases ih1 with h1 | h1
      · rcases hcase with hc | hc
        · subst hc
          cases h1
          exact Or.inr (List.mem_cons_self _ _)
        · cases h1
          exact Or.inl hc
      · exact Or.inr (List.mem_cons_of_mem _ h1)
    · intro e' he'
      rcases List.mem_cons.mp he' with he' | he'
      · subst he'
        exact Nat.le_trans hle hmx
      · exact ih2 e' he'
    · intro a ha
      exact Nat.le_trans (hacc a ha) hmx

theorem foldl_betterOpt_isSome (l : List ManifestEntry) :
    ∀ (acc : Option ManifestEntry), acc.isSome ∨ l ≠ [] →
      (List.foldl betterOpt acc l).isSome := by
  induction l with
  | nil =>
    intro acc h
    rcases h with h | h
    · exact h
    · exact absurd rfl h
  | cons e rest ih =>
    intro acc _
    simp only [List.foldl_cons]
    obtain ⟨m, hm, -, -, -⟩ := betterOpt_some acc e
    rw [hm]
    exact ih (some m) (Or.inl rfl)

theorem foldl_betterOpt_max (l : List ManifestEntry) (e₀ : ManifestEntry)
    (hdist : l.Pairwise (fun a b => a.lastModified ≠ b.lastModified))
    (hmem : e₀ ∈ l) (hmax : ∀ e ∈ l, e.lastModified ≤ e₀.lastModified) :
    List.foldl betterOpt none l = some e₀ := by
  have hne : l ≠ [] := by
    intro h
    rw [h] at hmem
    cases hmem
  have hsome := foldl_betterOpt_isSome l none (Or.inr hne)
  obtain ⟨x, hx⟩ := Option.isSome_iff_exists.mp hsome
  obtain ⟨hmem', hub, -⟩ := foldl_betterOpt_spec l none x hx
  have hxl : x ∈ l := by
    rcases hmem' with h | h
    · cases h
    · exact h
  have heq : x.lastModified = e₀.lastModified :=
    Nat.le_antisymm (hmax x hxl) (hub e₀ hmem)
  have hxe : x = e₀ := by
    by_contra hne'
    exact (hdist.forall (fun a b h => fun h' => h h'.symm) hxl hmem hne') heq
  rw [hx, hxe]

theorem filter_and_of_imp {p q : ManifestEntry → Bool} :
    ∀ {l : List ManifestEntry}, (∀ e ∈ l, p e = true → q e = true) →
      l.filter (fun e => p e && q e) = l.filter p := by
  intro l
  induction l with
  | nil => intro _; rfl
  | cons e rest ih =>
    intro h
    simp only [List.filter_cons]
    by_cases hp : p e = true
    · have hq := h e (List.mem_cons_self _ _) hp
      rw [hp, hq]
      simp [ih (fun e' he' hpe' => h e' (List.mem_cons_of_mem _ he') hpe')]
    · have hp' : p e = false := by
        revert hp
        cases p e <;> simp
      rw [hp']
      simp [ih (fun e' he' hpe' => h e' (List.mem_cons_of_mem _ he') hpe')]

theorem relevant_eq_entriesFor {ex : String → Bool} {s : Nat} {ms : List Manifest}
    (hex : ∀ e ∈ entriesFor s ms, ex e.fileName = true) :
    relevant ex s ms = entriesFor s ms := by
  unfold relevant entriesFor
  apply filter_and_of_imp
  intro e he hp
  exact hex e (List.mem_filter.mpr ⟨he, hp⟩)

theorem entriesFor_perm {ms ms' : List Manifest} (h : List.Perm ms ms') (s : Nat) :
    List.Perm (entriesFor s ms) (entriesFor s ms') :=
  (h.flatMap_right Manifest.files).filter _

/-- Merge correctness for one processing order: when every entry of the shard
ID has an existing backing file, the merged map holds the unique entry with
the greatest timestamp. -/
theorem loadManifests_lookup_max (ex : String → Bool) (ms : List Manifest) (s : Nat)
    (e₀ : ManifestEntry)
    (hmem : e₀ ∈ entriesFor s ms)
    (hmax : ∀ e ∈ entriesFor s ms, e.lastModified ≤ e₀.lastModified)
    (hdist : (entriesFor s ms).Pairwise (fun a b => a.lastModified ≠ b.lastModified))
    (hex : ∀ e ∈ entriesFor s ms, ex e.fileName = true) :
    lookupShard (loadManifests ex ms).shardEntries s = some e₀ := by
  rw [lookupShard_loadManifests, relevant_eq_entriesFor hex]
  exact foldl_betterOpt_max _ e₀ hdist hmem hmax

instance : IsTotal (String × Manifest) (fun a b => nameLe b.1 a.1) :=
  ⟨fun a b => le_total b.1.data a.1.data⟩

instance : IsTrans (String × Manifest) (fun a b => nameLe b.1 a.1) :=
  ⟨fun _ _ _ h1 h2 => le_trans h2 h1⟩

theorem sortByNameDesc_sorted (named : List (String × Manifest)) :
    List.Sorted (fun a b => nameLe b.1 a.1) (sortByNameDesc named) :=
  List.sorted_insertionSort _ _

theorem sortByNameDesc_perm (named : List (String × Manifest)) :
    List.Perm (sortByNameDesc named) named :=
  List.perm_insertionSort _ _

/-- The head of the descending sort carries a maximal filename. -/
theorem sortByNameDesc_head_max (named : List (String × Manifest))
    (p : String × Manifest) (rest : List (String × Manifest))
    (h : sortByNameDesc named = p :: rest) :
    ∀ q ∈ named, nameLe q.1 p.1 := by
  have hsorted := sortByNameDesc_sorted named
  have hperm := sortByNameDesc_perm named
  rw [h] at hsorted hperm
  intro q hq
  have hq' : q ∈ p :: rest := hperm.mem_iff.mpr hq
  rcases List.mem_cons.mp hq' with h1 | h1
  · subst h1
    exact le_refl q.1.data
  · exact (List.sorted_cons.mp hsorted).1 q h1

/-- C1: for every set of manifest files containing shard entries for the same
shard ID, all with existing backing files and pairwise different last-modified
timestamps, the merged plan built by loadIncremental maps that shard ID to the
entry with the greatest last-modified timestamp, and the same holds for every
processing order of the manifests; moreover the merge step keeps a new entry
exactly when no entry is kept yet or its timestamp is strictly greater than
the kept one. -/
theorem loadIncremental_merge_newest (ex : String → Bool)
    (named : List (String × Manifest)) (ms' : List Manifest) (s : Nat)
    (e₀ : ManifestEntry)
    (hperm : List.Perm (named.map Prod.snd) ms')
    (hmem : e₀ ∈ entriesFor s (named.map Prod.snd))
    (hmax : ∀ e ∈ entriesFor s (named.map Prod.snd), e.lastModified ≤ e₀.lastModified)
    (hdist : (entriesFor s (named.map Prod.snd)).Pairwise
      (fun a b => a.lastModified ≠ b.lastModified))
    (hex : ∀ e ∈ entriesFor s (named.map Prod.snd), ex e.fileName = true) :
    (lookupShard (loadIncremental ex named).shardEntries s = some e₀ ∧
      lookupShard (loadManifests ex ms').shardEntries s = some e₀) ∧
    (∀ (m : List (Nat × ManifestEntry)) (sh kept : ManifestEntry),
      lookupShard m sh.shardID = some kept →
      ¬ kept.lastModified < sh.lastModified →
      lookupShard (mergeStep ex m sh) sh.shardID = some kept) ∧
    (∀ (m : List (Nat × ManifestEntry)) (sh kept : ManifestEntry),
      ex sh.fileName = true →
      lookupShard m sh.shardID = some kept →
      kept.lastModified < sh.lastModified →
      lookupShard (mergeStep ex m sh) sh.shardID = some sh) := by
  have transfer : ∀ (ms2 : List Manifest), List.Perm (named.map Prod.snd) ms2 →
      lookupShard (loadManifests ex ms2).shardEntries s = some e₀ := by
    intro ms2 hp
    have hpe := entriesFor_perm hp s
    apply loadManifests_lookup_max
    · exact hpe.mem_iff.mp hmem
    · intro e he
      exact hmax e (hpe.mem_iff.mpr he)
    · exact (hpe.pairwise_iff (fun h' => Ne.symm h')).mp hdist
    · intro e he
      exact hex e (hpe.mem_iff.mpr he)
  refine ⟨⟨?_, transfer ms' hperm⟩, ?_, ?_⟩
  · unfold loadIncremental
    exact transfer _ ((sortByNameDesc_perm named).map Prod.snd).symm
  · intro m sh kept hlk hnlt
    rw [lookupShard_mergeStep]
    by_cases hex' : ex sh.fileName
    · simp [hex', hlk, betterOpt, hnlt]
    · simp [hex', hlk]
  · intro m sh kept hex' hlk hlt
    rw [lookupShard_mergeStep]
    simp [hex', hlk, betterOpt, hlt]

/-- Concrete inputs for the C1 witness: two manifests with entries for shard
7 whose timestamps differ; every file exists. -/
def exAll : String → Bool := fun _ => true

def entryOld : ManifestEntry := ⟨7, "b1", "f1", 1⟩

def entryNew : ManifestEntry := ⟨7, "b1", "f2", 2⟩

def manifestOld : Manifest := ⟨⟨"kvA", 0⟩, [entryOld]⟩

def manifestNew : Manifest := ⟨⟨"kvB", 0⟩, [entryNew]⟩

/-- Witness for C1 at a concrete input: with shard-7 entries of timestamps 1
and 2 spread over two manifests, both processing orders select the timestamp-2
entry. -/
theorem loadIncremental_merge_newest_witness :
    lookupShard (loadIncremental exAll
        [("m1", manifestOld), ("m2", manifestNew)]).shardEntries 7 = some entryNew ∧
    lookupShard (loadManifests exAll [manifestNew, manifestOld]).shardEntries 7 =
      some entryNew :=
  (loadIncremental_merge_newest exAll [("m1", manifestOld), ("m2", manifestNew)]
    [manifestNew, manifestOld] 7 entryNew (by decide) (by decide) (by decide)
    (by decide) (by decide)).1

def exKV : String → Bool := fun s => s == "kv1"

def manifestKV1 : Manifest := ⟨⟨"kv1", 0⟩, []⟩

def manifestKV2 : Manifest := ⟨⟨"kv2", 0⟩, []⟩

/-- C2 counterexample: with manifest files m1 < m2 where the metadata-store
snapshot of the lexicographically greatest manifest m2 is missing (os.Stat
fails on kv2) while the older manifest m1 has an existing snapshot kv1,
loadIncremental still selects the m2 KV entry: the code saves the KV entry of
the first manifest in descending filename order unconditionally and never
checks that the snapshot file exists, so the older snapshot is not selected. -/
theorem loadIncremental_kv_ignores_existence :
    (loadIncremental exKV [("m1", manifestKV1), ("m2", manifestKV2)]).kvEntry =
      some ⟨"kv2", 0⟩ ∧
    exKV "kv2" = false ∧ exKV "kv1" = true ∧
    (loadIncremental exKV [("m1", manifestKV1), ("m2", manifestKV2)]).kvEntry ≠
      some ⟨"kv1", 0⟩ := by decide

/-- C2 amended: when loadIncremental processes manifest files in descending
filename order, the selected kvEntry is the KV entry of the first manifest in
that order, the one with the lexicographically greatest filename, regardless
of whether its metadata-store snapshot exists; older manifests are never
consulted for the KV snapshot. -/
theorem loadIncremental_kvEntry_first (ex : String → Bool)
    (named : List (String × Manifest)) (p : String × Manifest)
    (rest : List (String × Manifest)) (h : sortByNameDesc named = p :: rest) :
    (loadIncremental ex named).kvEntry = some p.2.kv ∧
      ∀ q ∈ named, nameLe q.1 p.1 := by
  constructor
  · unfold loadIncremental
    rw [h]
    simp only [List.map_cons]
    exact loadManifests_kvEntry_cons ex p.2 (rest.map Prod.snd)
  · exact sortByNameDesc_head_max named p rest h

/-- Witness for the amended C2: on the counterexample directory the selected
KV entry is the one of the greatest filename m2. -/
theorem loadIncremental_kvEntry_first_witness :
    (loadIncremental exKV [("m1", manifestKV1), ("m2", manifestKV2)]).kvEntry =
      some manifestKV2.kv ∧
    ∀ q ∈ [("m1", manifestKV1), ("m2", manifestKV2)], nameLe q.1 "m2" :=
  loadIncremental_kvEntry_first exKV _ ("m2", manifestKV2) [("m1", manifestKV1)]
    (by decide)

/-- C3: a shard descriptor whose referenced archive file does not exist in the
backup directory is excluded from the merged plan entirely: every entry of the
merged shard map has an existing backing file. -/
theorem loadIncremental_entries_exist (ex : String → Bool)
    (named : List (String × Manifest)) (s : Nat) (e : ManifestEntry)
    (h : lookupShard (loadIncremental ex named).shardEntries s = some e) :
    ex e.fileName = true := by
  unfold loadIncremental at h
  rw [lookupShard_loadManifests] at h
  obtain ⟨hmem, -, -⟩ := foldl_betterOpt_spec _ none e h
  rcases hmem with h1 | h1
  · cases h1
  · unfold relevant at h1
    have h2 := (List.mem_filter.mp h1).2
    exact ((Bool.and_eq_true _ _).mp h2).2

def exOnlyF1 : String → Bool := fun s => s == "f1"

/-- Witness for C3: when the file f2 of the newer shard-7 entry is missing,
the merged plan holds the older entry, whose file f1 exists. -/
theorem loadIncremental_entries_exist_witness :
    exOnlyF1 entryOld.fileName = true :=
  loadIncremental_entries_exist exOnlyF1 [("m1", manifestOld), ("m2", manifestNew)]
    7 entryOld (by decide)

/-- Remote calls, manifest loading and warnings performed by the restore
command, recorded in call order. -/
inductive Effect where
  | loadManifestsEff : Effect
  | restoreKVEff (fileName : String) : Effect
  | findOrgEff (name : String) : Effect
  | createOrgEff (name : String) : Effect
  | createBucketEff (orgID : Nat) (name : String) : Effect
  | restoreBucketEff (bucketID : Nat) : Effect
  | warnShardEff (shardID : Nat) : Effect
  | restoreShardEff (shardID : Nat) (fileName : String) : Effect
deriving DecidableEq, Repr

/-- Result of one executor run: the returned error or success, together with
the trace of effects it performed. -/
abbrev RunResult := Except String Unit × List Effect

/-- Prepends already-performed effects to the result of the remaining run. -/
def withPre (t : List Effect) (r : RunResult) : RunResult :=
  (r.1, t ++ r.2)

/-- Model of influxdb.Organization as read by the restore code: ID and
name. -/
structure Organization where
  id : Nat
  name : String
deriving DecidableEq, Repr

/-- Model of influxdb.Bucket as read by the restore code: ID, owning
organization ID and name. -/
structure Bucket where
  id : Nat
  orgID : Nat
  name : String
deriving DecidableEq, Repr

/-- One lowercase hexadecimal digit character. -/
def hexChar (n : Nat) : Char :=
  if n < 10 then Char.ofNat (48 + n) else Char.ofNat (97 + n - 10)

/-- Modelled from the spec: influxdb.ID.String(), the sixteen-digit
hexadecimal rendering of an identifier (the ID type is outside the inspected
files; the spec treats IDs as abstract identifiers with a string form). -/
def idString (n : Nat) : String :=
  String.mk ((List.range 16).map (fun i => hexChar (n / 16 ^ (15 - i) % 16)))

/-- Value of one hexadecimal digit character. -/
def hexVal (c : Char) : Option Nat :=
  if '0' ≤ c ∧ c ≤ '9' then some (c.toNat - 48)
  else if 'a' ≤ c ∧ c ≤ 'f' then some (c.toNat - 87)
  else if 'A' ≤ c ∧ c ≤ 'F' then some (c.toNat - 55)
  else none

/-- Modelled from the spec: influxdb.IDFromString (outside the inspected
files), accepting exactly sixteen hexadecimal digits. -/
def parseID (s : String) : Option Nat :=
  if s.length = 16 then
    s.data.foldlM (fun acc c => (hexVal c).map (fun d => acc * 16 + d)) 0
  else none

/-- strings.HasPrefix(bkt.Name, underscore): whether the first character of
the bucket name is the reserved internal-bucket marker. -/
def hasInternalMarker (s : String) : Bool :=
  match s.data with
  | [] => false
  | c :: _ => c == '_'

/-- Result of the remote organization lookup: found with the remote
organization, not-found (influxdb.ENotFound), or any other error. -/
inductive FindOrgResult where
  | found (org : Organization)
  | notFound
  | err (msg : String)

/-- Oracles for the remote RPC surface consumed by the restore command. Each
oracle returns what the corresponding remote call would return; the creation
oracles return the remotely assigned ID, and restoreBucketCall returns the
shard ID remap. The field ex models os.Stat success for file names inside
the backup directory. -/
structure RemoteEnv where
  findOrg : String → FindOrgResult
  createOrg : String → Except String Nat
  createBucket : Nat → String → Except String Nat
  restoreBucketCall : Nat → String → Except String (Nat → Option Nat)
  restoreShard : Nat → String → Except String Unit
  restoreKV : String → Except String Unit
  ex : String → Bool

/-- The read-only local copy of the metadata store opened during non-full
restore: organizations, buckets, and the serialized per-bucket database info
of the meta store keyed by the bucket ID string (metaClient.Database composed
with MarshalBinary, whose output is modelled as the stored bytes). -/
structure LocalStore where
  orgs : List Organization
  buckets : List Bucket
  database : String → Option String

/-- The command flags of the restore builder read by the executors. -/
structure RestoreFlags where
  full : Bool
  bucketID : String
  bucketName : String
  newBucketName : String
  newOrgName : String
  orgID : String
  orgName : String
deriving Repr

/-- The shard loop of restoreFull: transfers every entry under its original
shard ID, stopping at the first failure; the local open and decompression
failures of restoreShard are folded into the transfer oracle result. -/
def restoreShardsFull (env : RemoteEnv) : List ManifestEntry → RunResult
  | [] => (Except.ok (), [])
  | f :: rest =>
    match env.restoreShard f.shardID f.fileName with
    | Except.error e => (Except.error e, [Effect.restoreShardEff f.shardID f.fileName])
    | Except.ok _ =>
      withPre [Effect.restoreShardEff f.shardID f.fileName] (restoreShardsFull env rest)

/-- restoreFull: streams the KV snapshot to the replace-metadata endpoint
first and, only on success, transfers every shard of the merged plan under
its original ID. -/
def restoreFull (env : RemoteEnv) (kv : ManifestKVEntry)
    (entries : List ManifestEntry) : RunResult :=
  match env.restoreKV kv.fileName with
  | Except.error e => (Except.error e, [Effect.restoreKVEff kv.fileName])
  | Except.ok _ => withPre [Effect.restoreKVEff kv.fileName] (restoreShardsFull env entries)

/-- The shard loop of restoreBucket: entries of other buckets are passed
over; a missing remap logs a warning and ends the bucket with success;
otherwise the shard is transferred under its remapped ID, a failure
aborting. -/
def restoreBucketShards (env : RemoteEnv) (bktIDStr : String)
    (remap : Nat → Option Nat) : List ManifestEntry → RunResult
  | [] => (Except.ok (), [])
  | f :: rest =>
    if f.bucketID ≠ bktIDStr then restoreBucketShards env bktIDStr remap rest
    else
      match remap f.shardID with
      | none => (Except.ok (), [Effect.warnShardEff f.shardID])
      | some newID =>
        match env.restoreShard newID f.fileName with
        | Except.error e => (Except.error e, [Effect.restoreShardEff newID f.fileName])
        | Except.ok _ =>
          withPre [Effect.restoreShardEff newID f.fileName]
            (restoreBucketShards env bktIDStr remap rest)

/-- The name under which a bucket is created remotely: the new-bucket rename
target when given, the backup-time name otherwise. -/
def bucketTargetName (flags : RestoreFlags) (bkt : Bucket) : String :=
  if flags.newBucketName ≠ "" then flags.newBucketName else bkt.name

/-- restoreBucket: creates the bucket remotely under its possibly renamed
name, looks the backup-time database info up by the original bucket ID,
serializes it to the remote restore-bucket endpoint, and transfers the shards
of the bucket under their remapped IDs. -/
def restoreBucket (env : RemoteEnv) (flags : RestoreFlags) (store : LocalStore)
    (entries : List ManifestEntry) (bkt : Bucket) : RunResult :=
  match env.createBucket bkt.orgID (bucketTargetName flags bkt) with
  | Except.error e =>
    (Except.error ("cannot create bucket: " ++ e),
      [Effect.createBucketEff bkt.orgID (bucketTargetName flags bkt)])
  | Except.ok bid =>
    match store.database (idString bkt.id) with
    | none =>
      (Except.error ("bucket database not found: " ++ idString bkt.id),
        [Effect.createBucketEff bkt.orgID (bucketTargetName flags bkt)])
    | some dbi =>
      match env.restoreBucketCall bid dbi with
      | Except.error e =>
        (Except.error ("cannot restore bucket: " ++ e),
          [Effect.createBucketEff bkt.orgID (bucketTargetName flags bkt),
            Effect.restoreBucketEff bid])
      | Except.ok remap =>
        withPre [Effect.createBucketEff bkt.orgID (bucketTargetName flags bkt),
            Effect.restoreBucketEff bid]
          (restoreBucketShards env (idString bkt.id) remap entries)

/-- The bucket loop of restoreOrganization: buckets whose name begins with
the internal marker are skipped; every other bucket is cloned, its
organization ID reassigned to the remote organization ID, and restored, a
failure aborting. -/
def restoreOrgBuckets (env : RemoteEnv) (flags : RestoreFlags) (store : LocalStore)
    (entries : List ManifestEntry) (newOrgID : Nat) : List Bucket → RunResult
  | [] => (Except.ok (), [])
  | bkt :: rest =>
    if hasInternalMarker bkt.name then
      restoreOrgBuckets env flags store entries newOrgID rest
    else
      match restoreBucket env flags store entries { bkt with orgID := newOrgID } with
      | (Except.error e, t) => (Except.error e, t)
      | (Except.ok _, t) =>
        withPre t (restoreOrgBuckets env flags store entries newOrgID rest)

/-- Bucket filter built in restoreOrganization: always keyed by the
backup-time organization ID, narrowed by the parsed bucket id flag or by the
bucket name flag. -/
structure BucketFilter where
  orgID : Nat
  fid : Option Nat
  fname : Option String
deriving Repr

def bucketFilterOf (flags : RestoreFlags) (org : Organization) :
    Except String BucketFilter :=
  if flags.bucketID ≠ "" then
    match parseID flags.bucketID with
    | none => Except.error "invalid bucket id"
    | some i => Except.ok ⟨org.id, some i, none⟩
  else if flags.bucketName ≠ "" then Except.ok ⟨org.id, none, some flags.bucketName⟩
  else Except.ok ⟨org.id, none, none⟩

/-- FindBuckets on the local tenant store: organization ID match plus the
optional id and name narrowing. -/
def findBucketsLocal (store : LocalStore) (bf : BucketFilter) : List Bucket :=
  store.buckets.filter (fun b =>
    b.orgID == bf.orgID &&
      (match bf.fid with
       | none => true
       | some i => b.id == i) &&
      (match bf.fname with
       | none => true
       | some n => b.name == n))

/-- Bucket selection and restoration of restoreOrganization, after the
remote organization ID has been determined. -/
def restoreOrgStage2 (env : RemoteEnv) (flags : RestoreFlags) (store : LocalStore)
    (entries : List ManifestEntry) (newOrgID : Nat) (org : Organization) : RunResult :=
  match bucketFilterOf flags org with
  | Except.error e => (Except.error e, [])
  | Except.ok bf =>
    restoreOrgBuckets env flags store entries newOrgID (findBucketsLocal store bf)

/-- The possibly renamed target organization name. -/
def orgTargetName (flags : RestoreFlags) (org : Organization) : String :=
  if flags.newOrgName ≠ "" then flags.newOrgName else org.name

/-- restoreOrganization: looks the target name up remotely, creates the
organization when not found, reuses the existing remote ID when found, aborts
on any other lookup error, then selects and restores the matching buckets. -/
def restoreOrganization (env : RemoteEnv) (flags : RestoreFlags) (store : LocalStore)
    (entries : List ManifestEntry) (org : Organization) : RunResult :=
  match env.findOrg (orgTargetName flags org) with
  | FindOrgResult.notFound =>
    match env.createOrg (orgTargetName flags org) with
    | Except.error e =>
      (Except.error ("cannot create organization: " ++ e),
        [Effect.findOrgEff (orgTargetName flags org),
          Effect.createOrgEff (orgTargetName flags org)])
    | Except.ok newID =>
      withPre [Effect.findOrgEff (orgTargetName flags org),
          Effect.createOrgEff (orgTargetName flags org)]
        (restoreOrgStage2 env flags store entries newID org)
  | FindOrgResult.err msg =>
    (Except.error ("cannot find existing organization: " ++ msg),
      [Effect.findOrgEff (orgTargetName flags org)])
  | FindOrgResult.found o =>
    withPre [Effect.findOrgEff (orgTargetName flags org)]
      (restoreOrgStage2 env flags store entries o.id org)

/-- Organization filter of restoreOrganizations: by parsed org id flag, or by
org name flag. -/
structure OrgFilter where
  fid : Option Nat
  fname : Option String
deriving Repr

def orgFilterOf (flags : RestoreFlags) : Except String OrgFilter :=
  if flags.orgID ≠ "" then
    match parseID flags.orgID with
    | none => Except.error "invalid org id"
    | some i => Except.ok ⟨some i, none⟩
  else if flags.orgName ≠ "" then Except.ok ⟨none, some flags.orgName⟩
  else Except.ok ⟨none, none⟩

/-- FindOrganizations on the local tenant store. -/
def findOrgsLocal (store : LocalStore) (f : OrgFilter) : List Organization :=
  store.orgs.filter (fun o =>
    (match f.fid with
     | none => true
     | some i => o.id == i) &&
      (match f.fname with
       | none => true
       | some n => o.name == n))

/-- The organization loop of restoreOrganizations: each matching organization
is restored in turn, a failure aborting. -/
def restoreOrgsLoop (env : RemoteEnv) (flags : RestoreFlags) (store : LocalStore)
    (entries : List ManifestEntry) : List Organization → RunResult
  | [] => (Except.ok (), [])
  | org :: rest =>
    match restoreOrganization env flags store entries org with
    | (Except.error e, t) => (Except.error e, t)
    | (Except.ok _, t) =>
      withPre t (restoreOrgsLoop env flags store entries rest)

def restoreOrganizations (env : RemoteEnv) (flags : RestoreFlags) (store : LocalStore)
    (entries : List ManifestEntry) : RunResult :=
  match orgFilterOf flags with
  | Except.error e => (Except.error e, [])
  | Except.ok f => restoreOrgsLoop env flags store entries (findOrgsLocal store f)

/-- The non-full restore executor: opens the backup metadata store read-only,
modelled as the given LocalStore (the bolt and meta-client opens are local
steps), and restores the matching organizations. -/
def restoreSelective (env : RemoteEnv) (flags : RestoreFlags) (store : LocalStore)
    (entries : List ManifestEntry) : RunResult :=
  restoreOrganizations env flags store entries

/-- restoreRunE: validates the rename flags, loads the merged plan from the
manifest files, requires a KV entry, and dispatches to the full or the
non-full executor. Logger and HTTP client construction are local steps,
infallible in the model. -/
def restoreRunE (env : RemoteEnv) (store : LocalStore) (flags : RestoreFlags)
    (named : List (String × Manifest)) : RunResult :=
  if flags.newOrgName ≠ "" ∧ flags.orgID = "" ∧ flags.orgName = "" then
    (Except.error "must specify source org id or name when renaming restored org", [])
  else if flags.newBucketName ≠ "" ∧ flags.bucketID = "" ∧ flags.bucketName = "" then
    (Except.error "must specify source bucket id or name when renaming restored bucket", [])
  else
    let st := loadIncremental env.ex named
    match st.kvEntry with
    | none => (Except.error "no manifest files found", [Effect.loadManifestsEff])
    | some kv =>
      let entries := st.shardEntries.map Prod.snd
      if flags.full then
        withPre [Effect.loadManifestsEff] (restoreFull env kv entries)
      else
        withPre [Effect.loadManifestsEff] (restoreSelective env flags store entries)

/-- The positional-argument validator of the restore command: exactly one
path argument is required, and it overwrites the path taken from the input
flag. -/
def restoreArgs (_inputPath : String) (args : List String) : Except String String :=
  match args with
  | [] => Except.error "must specify path to backup directory"
  | a :: rest =>
    if rest.length > 0 then Except.error "too many args specified"
    else Except.ok a

/-- C4: a new-organization rename target without a source organization id or
name filter, or a new-bucket rename target without a source bucket id or
name filter, makes restoreRunE return the configuration error with an empty
effect trace: no manifest is loaded and no remote call is made. -/
theorem restoreRunE_rename_precondition (env : RemoteEnv) (store : LocalStore)
    (flags : RestoreFlags) (named : List (String × Manifest)) :
    (flags.newOrgName ≠ "" ∧ flags.orgID = "" ∧ flags.orgName = "" →
      restoreRunE env store flags named =
        (Except.error "must specify source org id or name when renaming restored org",
          [])) ∧
    (¬(flags.newOrgName ≠ "" ∧ flags.orgID = "" ∧ flags.orgName = "") →
      flags.newBucketName ≠ "" ∧ flags.bucketID = "" ∧ flags.bucketName = "" →
      restoreRunE env store flags named =
        (Except.error "must specify source bucket id or name when renaming restored bucket",
          [])) := by
  constructor
  · intro h
    unfold restoreRunE
    rw [if_pos h]
  · intro h1 h2
    unfold restoreRunE
    rw [if_neg h1, if_pos h2]

def envW : RemoteEnv :=
  ⟨fun _ => FindOrgResult.notFound, fun _ => Except.ok 1, fun _ _ => Except.ok 1,
    fun _ _ => Except.ok (fun _ => none), fun _ _ => Except.ok (),
    fun _ => Except.ok (), fun _ => true⟩

def storeW : LocalStore := ⟨[], [], fun _ => none⟩

def flagsRenameOrg : RestoreFlags := ⟨false, "", "", "", "neworg", "", ""⟩

/-- Witness for C4: a new-org rename with no org filter yields the
configuration error and an empty trace. -/
theorem restoreRunE_rename_precondition_witness :
    restoreRunE envW storeW flagsRenameOrg [] =
      (Except.error "must specify source org id or name when renaming restored org",
        []) :=
  (restoreRunE_rename_precondition envW storeW flagsRenameOrg []).1 (by decide)

theorem restoreShardsFull_all_ok (env : RemoteEnv) (l : List ManifestEntry)
    (h : ∀ f ∈ l, env.restoreShard f.shardID f.fileName = Except.ok ()) :
    restoreShardsFull env l =
      (Except.ok (), l.map (fun f => Effect.restoreShardEff f.shardID f.fileName)) := by
  induction l with
  | nil => rfl
  | cons f rest ih =>
    have hf := h f (List.mem_cons_self _ _)
    simp only [restoreShardsFull, hf]
    rw [ih (fun g hg => h g (List.mem_cons_of_mem _ hg))]
    simp [withPre]

theorem restoreShardsFull_first_err (env : RemoteEnv) (pre : List ManifestEntry)
    (f : ManifestEntry) (post : List ManifestEntry) (e : String)
    (hpre : ∀ g ∈ pre, env.restoreShard g.shardID g.fileName = Except.ok ())
    (hf : env.restoreShard f.shardID f.fileName = Except.error e) :
    restoreShardsFull env (pre ++ f :: post) =
      (Except.error e,
        pre.map (fun g => Effect.restoreShardEff g.shardID g.fileName) ++
          [Effect.restoreShardEff f.shardID f.fileName]) := by
  induction pre with
  | nil => simp only [List.nil_append, restoreShardsFull, hf, List.map_nil]
  | cons g rest ih =>
    have hg := hpre g (List.mem_cons_self _ _)
    simp only [List.cons_append, restoreShardsFull, hg, List.append_eq]
    rw [ih (fun g' hg' => hpre g' (List.mem_cons_of_mem _ hg'))]
    simp [withPre]

/-- C5: restoreFull streams the KV snapshot to the replace-metadata endpoint
first; a KV error aborts with no shard transfer attempted; on KV success
every shard entry is transferred under its original shard ID in plan order,
and a failing shard aborts the remaining transfers while the shards already
transferred stay in the trace, not rolled back. -/
theorem restoreFull_kv_first_shards_original (env : RemoteEnv) (kv : ManifestKVEntry)
    (entries : List ManifestEntry) :
    (restoreFull env kv entries).2.head? = some (Effect.restoreKVEff kv.fileName) ∧
    (∀ e, env.restoreKV kv.fileName = Except.error e →
      restoreFull env kv entries = (Except.error e, [Effect.restoreKVEff kv.fileName])) ∧
    (env.restoreKV kv.fileName = Except.ok () →
      ((∀ f ∈ entries, env.restoreShard f.shardID f.fileName = Except.ok ()) →
        restoreFull env kv entries =
          (Except.ok (), Effect.restoreKVEff kv.fileName ::
            entries.map (fun f => Effect.restoreShardEff f.shardID f.fileName))) ∧
      (∀ pre f post e, entries = pre ++ f :: post →
        (∀ g ∈ pre, env.restoreShard g.shardID g.fileName = Except.ok ()) →
        env.restoreShard f.shardID f.fileName = Except.error e →
        restoreFull env kv entries =
          (Except.error e, Effect.restoreKVEff kv.fileName ::
            (pre.map (fun g => Effect.restoreShardEff g.shardID g.fileName) ++
              [Effect.restoreShardEff f.shardID f.fileName])))) := by
  refine ⟨?_, ?_, ?_⟩
  · unfold restoreFull
    cases hkv : env.restoreKV kv.fileName with
    | error e => rfl
    | ok u => simp [withPre]
  · intro e he
    unfold restoreFull
    rw [he]
  · intro hok
    constructor
    · intro hall
      unfold restoreFull
      rw [hok, restoreShardsFull_all_ok env entries hall]
      rfl
    · intro pre f post e hsplit hpre hf
      unfold restoreFull
      rw [hok, hsplit, restoreShardsFull_first_err env pre f post e hpre hf]
      rfl

def entryThird : ManifestEntry := ⟨10, "b1", "f10", 3⟩

def entryBad : ManifestEntry := ⟨9, "b1", "f9", 2⟩

/-- Remote environment for the C5 witness: the KV restore succeeds, shard 9
fails, every other shard succeeds. -/
def envShard9Fails : RemoteEnv :=
  ⟨fun _ => FindOrgResult.notFound, fun _ => Except.ok 1, fun _ _ => Except.ok 1,
    fun _ _ => Except.ok (fun _ => none),
    fun sid _ => if sid == 9 then Except.error "shard 9 down" else Except.ok (),
    fun _ => Except.ok (), fun _ => true⟩

/-- Witness for C5 at a concrete input: the KV effect comes first, shard 7 is
transferred under its original ID, the failure on shard 9 aborts before shard
10, and the shard-7 transfer stays in the trace. -/
theorem restoreFull_kv_first_shards_original_witness :
    restoreFull envShard9Fails ⟨"kv", 0⟩ [entryOld, entryBad, entryThird] =
      (Except.error "shard 9 down", Effect.restoreKVEff "kv" ::
        ([entryOld].map (fun g => Effect.restoreShardEff g.shardID g.fileName) ++
          [Effect.restoreShardEff entryBad.shardID entryBad.fileName])) :=
  ((restoreFull_kv_first_shards_original envShard9Fails ⟨"kv", 0⟩
      [entryOld, entryBad, entryThird]).2.2 rfl).2 [entryOld] entryBad [entryThird]
    "shard 9 down" rfl
    (by
      intro g hg
      rw [List.mem_singleton] at hg
      subst hg
      rfl)
    rfl

theorem restoreBucket_store_db (env : RemoteEnv) (flags : RestoreFlags)
    (s1 s2 : LocalStore) (hdb : s1.database = s2.database)
    (entries : List ManifestEntry) (bkt : Bucket) :
    restoreBucket env flags s1 entries bkt = restoreBucket env flags s2 entries bkt := by
  unfold restoreBucket
  rw [hdb]

theorem restoreOrgBuckets_store_db (env : RemoteEnv) (flags : RestoreFlags)
    (s1 s2 : LocalStore) (hdb : s1.database = s2.database)
    (entries : List ManifestEntry) (newOrgID : Nat) (bkts : List Bucket) :
    restoreOrgBuckets env flags s1 entries newOrgID bkts =
      restoreOrgBuckets env flags s2 entries newOrgID bkts := by
  induction bkts with
  | nil => rfl
  | cons b rest ih =>
    simp only [restoreOrgBuckets]
    rw [restoreBucket_store_db env flags s1 s2 hdb, ih]

theorem restoreOrgBuckets_filter_internal (env : RemoteEnv) (flags : RestoreFlags)
    (store : LocalStore) (entries : List ManifestEntry) (newOrgID : Nat)
    (bkts : List Bucket) :
    restoreOrgBuckets env flags store entries newOrgID bkts =
      restoreOrgBuckets env flags store entries newOrgID
        (bkts.filter (fun b => !hasInternalMarker b.name)) := by
  induction bkts with
  | nil => rfl
  | cons b rest ih =>
    cases hb : hasInternalMarker b.name with
    | true =>
      simp only [restoreOrgBuckets, hb, List.filter_cons, Bool.not_true, if_true]
      simpa using ih
    | false =>
      simp only [restoreOrgBuckets, hb, List.filter_cons, Bool.not_false, if_false]
      simp only [Bool.false_eq_true, if_false, if_true]
      rcases hr : restoreBucket env flags store entries { b with orgID := newOrgID }
        with ⟨res, t⟩
      cases res with
      | error e => simp [restoreOrgBuckets, hr]
      | ok u => simp [restoreOrgBuckets, hr, withPre, ih]

theorem findBucketsLocal_filter_internal (store : LocalStore) (bf : BucketFilter) :
    findBucketsLocal
        ⟨store.orgs, store.buckets.filter (fun b => !hasInternalMarker b.name),
          store.database⟩ bf =
      (findBucketsLocal store bf).filter (fun b => !hasInternalMarker b.name) := by
  unfold findBucketsLocal
  rw [List.filter_filter, List.filter_filter]
  apply List.filter_congr
  intro b _
  rw [Bool.and_comm]

/-- C6: internal buckets, whose name begins with the underscore marker, are
skipped by the non-full restore: the bucket loop behaves exactly as if they
were absent from the selection, a single internal bucket is neither created
remotely nor has any shard restored, and restoreOrganization gives the same
result on a store holding the internal buckets and on one with them removed,
whatever the id or name filter selected. -/
theorem restoreOrganization_internal_buckets_skipped (env : RemoteEnv)
    (flags : RestoreFlags) (store : LocalStore) (entries : List ManifestEntry)
    (newOrgID : Nat) :
    (∀ bkts : List Bucket,
      restoreOrgBuckets env flags store entries newOrgID bkts =
        restoreOrgBuckets env flags store entries newOrgID
          (bkts.filter (fun b => !hasInternalMarker b.name))) ∧
    (∀ bkt : Bucket, hasInternalMarker bkt.name = true →
      restoreOrgBuckets env flags store entries newOrgID [bkt] = (Except.ok (), [])) ∧
    (∀ org : Organization,
      restoreOrganization env flags store entries org =
        restoreOrganization env flags
          ⟨store.orgs, store.buckets.filter (fun b => !hasInternalMarker b.name),
            store.database⟩ entries org) := by
  refine ⟨restoreOrgBuckets_filter_internal env flags store entries newOrgID, ?_, ?_⟩
  · intro bkt hb
    simp [restoreOrgBuckets, hb]
  · intro org
    have hstage : ∀ nid, restoreOrgStage2 env flags store entries nid org =
        restoreOrgStage2 env flags
          ⟨store.orgs, store.buckets.filter (fun b => !hasInternalMarker b.name),
            store.database⟩ entries nid org := by
      intro nid
      unfold restoreOrgStage2
      cases hbf : bucketFilterOf flags org with
      | error e => rfl
      | ok bf =>
        dsimp only
        rw [findBucketsLocal_filter_internal store bf]
        rw [restoreOrgBuckets_store_db env flags
          ⟨store.orgs, store.buckets.filter (fun b => !hasInternalMarker b.name),
            store.database⟩ store rfl]
        exact restoreOrgBuckets_filter_internal env flags store entries nid _
    unfold restoreOrganization
    cases env.findOrg (orgTargetName flags org) with
    | notFound =>
      cases env.createOrg (orgTargetName flags org) with
      | error e => rfl
      | ok newID =>
        dsimp only
        rw [hstage newID]
    | err msg => rfl
    | found o =>
      dsimp only
      rw [hstage o.id]

def bucketInternal : Bucket := ⟨3, 2, "_tasks"⟩

/-- Witness for C6: an internal bucket in the selected list produces no
remote call at all. -/
theorem restoreOrganization_internal_buckets_skipped_witness :
    restoreOrgBuckets envW flagsRenameOrg storeW [] 1 [bucketInternal] =
      (Except.ok (), []) :=
  (restoreOrganization_internal_buckets_skipped envW flagsRenameOrg storeW [] 1).2.1
    bucketInternal (by decide)

theorem createOrgEff_notin_restoreBucketShards (env : RemoteEnv) (bktIDStr : String)
    (remap : Nat → Option Nat) (l : List ManifestEntry) (n : String) :
    Effect.createOrgEff n ∉ (restoreBucketShards env bktIDStr remap l).2 := by
  induction l with
  | nil => simp [restoreBucketShards]
  | cons f rest ih =>
    simp only [restoreBucketShards]
    by_cases hb : f.bucketID ≠ bktIDStr
    · rw [if_pos hb]
      exact ih
    · rw [if_neg hb]
      cases hr : remap f.shardID with
      | none => simp [hr]
      | some nid =>
        cases hs : env.restoreShard nid f.fileName with
        | error e => simp [hr, hs]
        | ok u =>
          simp only [hr, hs, withPre]
          intro hmem
          rcases List.mem_append.mp hmem with h1 | h1
          · simp at h1
          · exact ih h1

theorem createOrgEff_notin_restoreBucket (env : RemoteEnv) (flags : RestoreFlags)
    (store : LocalStore) (entries : List ManifestEntry) (bkt : Bucket) (n : String) :
    Effect.createOrgEff n ∉ (restoreBucket env flags store entries bkt).2 := by
  unfold restoreBucket
  cases env.createBucket bkt.orgID (bucketTargetName flags bkt) with
  | error e => simp
  | ok bid =>
    dsimp only
    cases store.database (idString bkt.id) with
    | none => simp
    | some dbi =>
      dsimp only
      cases env.restoreBucketCall bid dbi with
      | error e => simp
      | ok remap =>
        simp only [withPre, List.cons_append, List.nil_append, List.mem_cons]
        intro hmem
        rcases hmem with h1 | h1 | h1
        · cases h1
        · cases h1
        · exact createOrgEff_notin_restoreBucketShards env (idString bkt.id) remap
            entries n h1

theorem createOrgEff_notin_restoreOrgBuckets (env : RemoteEnv) (flags : RestoreFlags)
    (store : LocalStore) (entries : List ManifestEntry) (newOrgID : Nat)
    (bkts : List Bucket) (n : String) :
    Effect.createOrgEff n ∉ (restoreOrgBuckets env flags store entries newOrgID bkts).2 := by
  induction bkts with
  | nil => simp [restoreOrgBuckets]
  | cons b rest ih =>
    simp only [restoreOrgBuckets]
    cases hb : hasInternalMarker b.name with
    | true =>
      simp only [if_true]
      exact ih
    | false =>
      simp only [Bool.false_eq_true, if_false]
      rcases hr : restoreBucket env flags store entries { b with orgID := newOrgID }
        with ⟨res, t⟩
      have ht : Effect.createOrgEff n ∉ t := by
        have := createOrgEff_notin_restoreBucket env flags store entries
          { b with orgID := newOrgID } n
        rw [hr] at this
        exact this
      cases res with
      | error e => exact ht
      | ok u =>
        simp only [withPre, List.mem_append]
        intro hmem
        rcases hmem with h1 | h1
        · exact ht h1
        · exact ih h1

theorem createOrgEff_notin_restoreOrgStage2 (env : RemoteEnv) (flags : RestoreFlags)
    (store : LocalStore) (entries : List ManifestEntry) (newOrgID : Nat)
    (org : Organization) (n : String) :
    Effect.createOrgEff n ∉
      (restoreOrgStage2 env flags store entries newOrgID org).2 := by
  unfold restoreOrgStage2
  cases bucketFilterOf flags org with
  | error e => simp
  | ok bf =>
    exact createOrgEff_notin_restoreOrgBuckets env flags store entries newOrgID
      (findBucketsLocal store bf) n

/-- C7: restoreOrganization looks the possibly renamed target name up on the
remote server; when the lookup reports not-found the organization is created
remotely, a creation failure aborting with an error and a creation success
making the newly assigned remote ID the one used for the bucket stage; when
the lookup succeeds the existing remote ID is reused and no create call
appears in the trace; any other lookup error aborts with an error. -/
theorem restoreOrganization_lookup_create_reuse (env : RemoteEnv) (flags : RestoreFlags)
    (store : LocalStore) (entries : List ManifestEntry) (org : Organization) :
    (env.findOrg (orgTargetName flags org) = FindOrgResult.notFound →
      (∀ e, env.createOrg (orgTargetName flags org) = Except.error e →
        restoreOrganization env flags store entries org =
          (Except.error ("cannot create organization: " ++ e),
            [Effect.findOrgEff (orgTargetName flags org),
              Effect.createOrgEff (orgTargetName flags org)])) ∧
      (∀ newID, env.createOrg (orgTargetName flags org) = Except.ok newID →
        restoreOrganization env flags store entries org =
          withPre [Effect.findOrgEff (orgTargetName flags org),
              Effect.createOrgEff (orgTargetName flags org)]
            (restoreOrgStage2 env flags store entries newID org))) ∧
    (∀ o, env.findOrg (orgTargetName flags org) = FindOrgResult.found o →
      restoreOrganization env flags store entries org =
        withPre [Effect.findOrgEff (orgTargetName flags org)]
          (restoreOrgStage2 env flags store entries o.id org) ∧
      ∀ n, Effect.createOrgEff n ∉ (restoreOrganization env flags store entries org).2) ∧
    (∀ msg, env.findOrg (orgTargetName flags org) = FindOrgResult.err msg →
      restoreOrganization env flags store entries org =
        (Except.error ("cannot find existing organization: " ++ msg),
          [Effect.findOrgEff (orgTargetName flags org)])) := by
  refine ⟨?_, ?_, ?_⟩
  · intro hnf
    constructor
    · intro e he
      unfold restoreOrganization
      rw [hnf, he]
    · intro newID hok
      unfold restoreOrganization
      rw [hnf, hok]
  · intro o hfound
    constructor
    · unfold restoreOrganization
      rw [hfound]
    · intro n
      unfold restoreOrganization
      rw [hfound]
      simp only [withPre, List.cons_append, List.nil_append, List.mem_cons]
      intro hmem
      rcases hmem with h1 | h1
      · cases h1
      · exact createOrgEff_notin_restoreOrgStage2 env flags store entries o.id org n h1
  · intro msg herr
    unfold restoreOrganization
    rw [herr]

def orgBackup : Organization := ⟨5, "org1"⟩

/-- Remote environment for the C7 witness: the organization name org1 already
exists remotely under ID 42. -/
def envOrgFound : RemoteEnv :=
  ⟨fun nm => if nm == "org1" then FindOrgResult.found ⟨42, "org1"⟩
      else FindOrgResult.notFound,
    fun _ => Except.ok 1, fun _ _ => Except.ok 1,
    fun _ _ => Except.ok (fun _ => none), fun _ _ => Except.ok (),
    fun _ => Except.ok (), fun _ => true⟩

def flagsNoop : RestoreFlags := ⟨false, "", "", "", "", "", ""⟩

/-- Witness for C7: with org1 already present remotely, the run reuses the
remote ID 42 for the bucket stage and performs no create call. -/
theorem restoreOrganization_lookup_create_reuse_witness :
    restoreOrganization envOrgFound flagsNoop storeW [] orgBackup =
      withPre [Effect.findOrgEff (orgTargetName flagsNoop orgBackup)]
        (restoreOrgStage2 envOrgFound flagsNoop storeW [] 42 orgBackup) :=
  ((restoreOrganization_lookup_create_reuse envOrgFound flagsNoop storeW []
      orgBackup).2.1 ⟨42, "org1"⟩ rfl).1

theorem restoreBucketShards_missing_remap (env : RemoteEnv) (bktIDStr : String)
    (remap : Nat → Option Nat) (pre : List ManifestEntry) (f : ManifestEntry)
    (post : List ManifestEntry)
    (hb : f.bucketID = bktIDStr) (hmiss : remap f.shardID = none)
    (hpre : ∀ g ∈ pre, g.bucketID = bktIDStr →
      ∃ nid, remap g.shardID = some nid ∧
        env.restoreShard nid g.fileName = Except.ok ()) :
    restoreBucketShards env bktIDStr remap (pre ++ f :: post) =
      (Except.ok (), (restoreBucketShards env bktIDStr remap pre).2 ++
        [Effect.warnShardEff f.shardID]) := by
  induction pre with
  | nil =>
    simp only [List.nil_append, restoreBucketShards]
    rw [if_neg (by simp [hb]), hmiss]
  | cons g rest ih =>
    have ihr := ih (fun g' hg' => hpre g' (List.mem_cons_of_mem _ hg'))
    by_cases hg : g.bucketID ≠ bktIDStr
    · simp only [List.cons_append, restoreBucketShards, List.append_eq]
      rw [if_pos hg, if_pos hg, ihr]
    · have hgb : g.bucketID = bktIDStr := not_not.mp (fun h => hg h)
      obtain ⟨nid, hr, hok⟩ := hpre g (List.mem_cons_self _ _) hgb
      simp only [List.cons_append, restoreBucketShards, List.append_eq]
      rw [if_neg hg, if_neg hg, hr]
      dsimp only
      rw [hok]
      dsimp only
      rw [ihr]
      simp [withPre]

/-- C8: when some shard entry of the bucket has no remapped ID in the map
returned by the remote restore-bucket call, and the entries of the bucket
before it restored successfully, restoreBucket logs the warning and returns
success immediately: its result is ok and its trace ends at the warning, so
no later shard of the bucket is restored and the restore is not marked
failed. -/
theorem restoreBucket_missing_remap_early_ok (env : RemoteEnv) (flags : RestoreFlags)
    (store : LocalStore) (bkt : Bucket) (pre post : List ManifestEntry)
    (f : ManifestEntry) (bid : Nat) (dbi : String) (remap : Nat → Option Nat)
    (hcreate : env.createBucket bkt.orgID (bucketTargetName flags bkt) = Except.ok bid)
    (hdb : store.database (idString bkt.id) = some dbi)
    (hcall : env.restoreBucketCall bid dbi = Except.ok remap)
    (hb : f.bucketID = idString bkt.id)
    (hmiss : remap f.shardID = none)
    (hpre : ∀ g ∈ pre, g.bucketID = idString bkt.id →
      ∃ nid, remap g.shardID = some nid ∧
        env.restoreShard nid g.fileName = Except.ok ()) :
    restoreBucket env flags store (pre ++ f :: post) bkt =
      (Except.ok (),
        [Effect.createBucketEff bkt.orgID (bucketTargetName flags bkt),
          Effect.restoreBucketEff bid] ++
          ((restoreBucketShards env (idString bkt.id) remap pre).2 ++
            [Effect.warnShardEff f.shardID])) := by
  unfold restoreBucket
  rw [hcreate]
  dsimp only
  rw [hdb]
  dsimp only
  rw [hcall]
  dsimp only
  rw [restoreBucketShards_missing_remap env (idString bkt.id) remap pre f post hb
    hmiss hpre]
  rfl

def bucketB1 : Bucket := ⟨1, 2, "b1"⟩

def remapW : Nat → Option Nat := fun n => if n == 7 then some 70 else none

/-- Remote environment for the C8 witness: bucket creation assigns ID 5, the
restore-bucket call returns a remap holding shard 7 only, every shard
transfer succeeds. -/
def envMissingRemap : RemoteEnv :=
  ⟨fun _ => FindOrgResult.notFound, fun _ => Except.ok 1, fun _ _ => Except.ok 5,
    fun _ _ => Except.ok remapW, fun _ _ => Except.ok (), fun _ => Except.ok (),
    fun _ => true⟩

def storeB1 : LocalStore :=
  ⟨[], [bucketB1], fun s => if s == idString 1 then some "dbinfo" else none⟩

def entryShard7 : ManifestEntry := ⟨7, idString 1, "f7", 1⟩

def entryShard9 : ManifestEntry := ⟨9, idString 1, "f9", 1⟩

def entryShard10 : ManifestEntry := ⟨10, idString 1, "f10", 1⟩

/-- Witness for C8 at a concrete input: shard 9 of bucket 1 has no remap, so
after the successful transfer of shard 7 the bucket run ends ok at the
warning, with shard 10 never touched. -/
theorem restoreBucket_missing_remap_early_ok_witness :
    restoreBucket envMissingRemap flagsNoop storeB1
        ([entryShard7] ++ entryShard9 :: [entryShard10]) bucketB1 =
      (Except.ok (),
        [Effect.createBucketEff bucketB1.orgID (bucketTargetName flagsNoop bucketB1),
          Effect.restoreBucketEff 5] ++
          ((restoreBucketShards envMissingRemap (idString 1) remapW [entryShard7]).2 ++
            [Effect.warnShardEff entryShard9.shardID])) :=
  restoreBucket_missing_remap_early_ok envMissingRemap flagsNoop storeB1 bucketB1
    [entryShard7] [entryShard10] entryShard9 5 "dbinfo" remapW
    rfl (by decide) rfl (by decide) (by decide)
    (by
      intro g hg hgb
      rw [List.mem_singleton] at hg
      subst hg
      exact ⟨70, rfl, rfl⟩)

theorem bucketTargetName_reassign (flags : RestoreFlags) (b : Bucket) (n : Nat) :
    bucketTargetName flags { b with orgID := n } = bucketTargetName flags b := rfl

theorem restoreBucket_trace_cons (env : RemoteEnv) (flags : RestoreFlags)
    (store : LocalStore) (entries : List ManifestEntry) (bkt : Bucket) :
    ∃ t, (restoreBucket env flags store entries bkt).2 =
      Effect.createBucketEff bkt.orgID (bucketTargetName flags bkt) :: t := by
  unfold restoreBucket
  cases env.createBucket bkt.orgID (bucketTargetName flags bkt) with
  | error e => exact ⟨[], rfl⟩
  | ok bid =>
    dsimp only
    cases store.database (idString bkt.id) with
    | none => exact ⟨[], rfl⟩
    | some dbi =>
      dsimp only
      cases env.restoreBucketCall bid dbi with
      | error e => exact ⟨[Effect.restoreBucketEff bid], rfl⟩
      | ok remap =>
        exact ⟨Effect.restoreBucketEff bid ::
          (restoreBucketShards env (idString bkt.id) remap entries).2, rfl⟩

/-- C9: the bucket filter of restoreOrganization always carries the
backup-time organization ID of the organization being restored; bucket
enumeration returns exactly the stored buckets matching that organization ID
together with the optional bucket id or name narrowing; each selected
non-internal bucket is cloned with its organization ID reassigned to the
target remote organization ID and created remotely under its possibly
renamed name, the creation call coming first; and a creation error aborts
the run with the creation error. -/
theorem restoreOrganization_bucket_selection (env : RemoteEnv) (flags : RestoreFlags)
    (store : LocalStore) (entries : List ManifestEntry) (newOrgID : Nat)
    (org : Organization) :
    (∀ bf, bucketFilterOf flags org = Except.ok bf → bf.orgID = org.id) ∧
    (∀ bf b, b ∈ findBucketsLocal store bf ↔
      (b ∈ store.buckets ∧ b.orgID = bf.orgID ∧
        (∀ i, bf.fid = some i → b.id = i) ∧
        (∀ n, bf.fname = some n → b.name = n))) ∧
    (∀ b rest, hasInternalMarker b.name = false →
      (restoreOrgBuckets env flags store entries newOrgID (b :: rest)).2.head? =
        some (Effect.createBucketEff newOrgID (bucketTargetName flags b))) ∧
    (∀ b rest e, hasInternalMarker b.name = false →
      env.createBucket newOrgID (bucketTargetName flags b) = Except.error e →
      restoreOrgBuckets env flags store entries newOrgID (b :: rest) =
        (Except.error ("cannot create bucket: " ++ e),
          [Effect.createBucketEff newOrgID (bucketTargetName flags b)])) := by
  refine ⟨?_, ?_, ?_, ?_⟩
  · intro bf hbf
    unfold bucketFilterOf at hbf
    by_cases h1 : flags.bucketID ≠ ""
    · rw [if_pos h1] at hbf
      cases hp : parseID flags.bucketID with
      | none =>
        rw [hp] at hbf
        cases hbf
      | some i =>
        rw [hp] at hbf
        cases hbf
        rfl
    · rw [if_neg h1] at hbf
      by_cases h2 : flags.bucketName ≠ ""
      · rw [if_pos h2] at hbf
        cases hbf
        rfl
      · rw [if_neg h2] at hbf
        cases hbf
        rfl
  · intro bf b
    unfold findBucketsLocal
    rw [List.mem_filter]
    constructor
    · rintro ⟨hmem, hcond⟩
      have h12 := (Bool.and_eq_true _ _).mp hcond
      have h1 := ((Bool.and_eq_true _ _).mp h12.1).1
      have h2 := ((Bool.and_eq_true _ _).mp h12.1).2
      have h3 := h12.2
      refine ⟨hmem, eq_of_beq h1, ?_, ?_⟩
      · intro i hi
        rw [hi] at h2
        dsimp only at h2
        exact eq_of_beq h2
      · intro n hn
        rw [hn] at h3
        dsimp only at h3
        exact eq_of_beq h3
    · rintro ⟨hmem, horg, hid, hname⟩
      refine ⟨hmem, ?_⟩
      have h1 : (b.orgID == bf.orgID) = true := beq_iff_eq.mpr horg
      have h2 : (match bf.fid with
          | none => true
          | some i => b.id == i) = true := by
        cases hfi : bf.fid with
        | none => rfl
        | some i =>
          dsimp only
          exact beq_iff_eq.mpr (hid i hfi)
      have h3 : (match bf.fname with
          | none => true
          | some n => b.name == n) = true := by
        cases hfn : bf.fname with
        | none => rfl
        | some n =>
          dsimp only
          exact beq_iff_eq.mpr (hname n hfn)
      rw [h1, h2, h3]
      rfl
  · intro b rest hb
    simp only [restoreOrgBuckets, hb, Bool.false_eq_true, if_false]
    rcases hr : restoreBucket env flags store entries { b with orgID := newOrgID }
      with ⟨res, t⟩
    obtain ⟨t', ht⟩ := restoreBucket_trace_cons env flags store entries
      { b with orgID := newOrgID }
    rw [hr] at ht
    dsimp only at ht
    rw [bucketTargetName_reassign] at ht
    cases res with
    | error e => simp [ht]
    | ok u => simp [withPre, ht]
  · intro b rest e hb hcb
    simp only [restoreOrgBuckets, hb, Bool.false_eq_true, if_false]
    unfold restoreBucket
    dsimp only
    rw [bucketTargetName_reassign, hcb]

/-- Remote environment for the C9 witness: remote bucket creation always
fails, as when the bucket already exists in the target organization. -/
def envBucketFail : RemoteEnv :=
  ⟨fun _ => FindOrgResult.notFound, fun _ => Except.ok 1,
    fun _ _ => Except.error "bucket exists", fun _ _ => Except.ok (fun _ => none),
    fun _ _ => Except.ok (), fun _ => Except.ok (), fun _ => true⟩

/-- Witness for C9: the failing creation of bucket b1 under the remote
organization ID 42 aborts the bucket loop with the creation error, the
creation call being the only effect. -/
theorem restoreOrganization_bucket_selection_witness :
    restoreOrgBuckets envBucketFail flagsNoop storeW [] 42 [bucketB1] =
      (Except.error ("cannot create bucket: " ++ "bucket exists"),
        [Effect.createBucketEff 42 (bucketTargetName flagsNoop bucketB1)]) :=
  (restoreOrganization_bucket_selection envBucketFail flagsNoop storeW [] 42
      orgBackup).2.2.2 bucketB1 [] "bucket exists" (by decide) rfl

/-- C10: the restore command requires exactly one positional argument: with
none it fails with the must-specify-path error, with two or more it fails
with the too-many-args error, and exactly one is assigned as the backup
path, overriding whatever the input flag supplied. -/
theorem restoreArgs_exactly_one (inputPath : String) (args : List String) :
    (args = [] → restoreArgs inputPath args =
      Except.error "must specify path to backup directory") ∧
    (2 ≤ args.length → restoreArgs inputPath args =
      Except.error "too many args specified") ∧
    (∀ a, args = [a] → restoreArgs inputPath args = Except.ok a) := by
  refine ⟨?_, ?_, ?_⟩
  · intro h
    subst h
    rfl
  · intro h
    cases args with
    | nil => simp at h
    | cons a rest =>
      cases rest with
      | nil => simp at h
      | cons b rest' => simp [restoreArgs]
  · intro a h
    subst h
    rfl

/-- Witness for C10: the single positional argument p becomes the path, the
input-flag value being overridden. -/
theorem restoreArgs_exactly_one_witness :
    restoreArgs "flagpath" ["p"] = Except.ok "p" :=
  (restoreArgs_exactly_one "flagpath" ["p"]).2.2 "p" rfl

end Restore
